import Mathlib

/-!
# Verification of the mbest-sample-api request-handling core (`src/server.js`)

Shallow embedding of the Express + SQLite demo backend: the validation helpers,
the base64url token codec (`createToken` / `parseToken`), and the resource
handlers for posts CRUD and auth signup/login/me, together with proofs of the
behavioural properties stated in the specification.

Modelling conventions:
* A JavaScript string is modelled as a `List Nat` of Unicode code points
  (`JsStr`).  String literals are injected with `js`.
* `Buffer.from(s).toString("base64url")` is modelled as UTF-8 encoding of the
  code points followed by unpadded base64url; the reverse direction is the
  lenient byte decoder (non-alphabet characters are ignored, trailing partial
  groups yield the bytes they determine, as Node's base64 decoder does).
  Node's `toString("utf8")` substitutes U+FFFD for invalid byte sequences;
  here invalid UTF-8 is modelled as a decode failure, which `parseToken`
  treats as an invalid token — on either modelling the caller rejects the
  token with 401.
* `Number(s)` composed with the `Number.isInteger` check is modelled by
  `jsNumberInt?` on the decimal fragment `[+-]?digits(.digits)?` (whitespace
  trimmed, empty string ↦ 0); exponent/hex/`Infinity` literals and
  beyond-2^53 rounding are outside the modelled fragment and map to `none`.
* ISO-8601 timestamp strings produced by `new Date().toISOString()` are a
  monotone injective encoding of the millisecond clock, so timestamps are
  modelled as the underlying `Nat` millisecond value.
-/

namespace MbestApi

/-- A JavaScript string, as its list of Unicode code points. -/
abbrev JsStr := List Nat

/-- Inject a Lean string literal as a `JsStr`. -/
def js (s : String) : JsStr := s.data.map Char.toNat

/-- The whitespace code points stripped by `String.prototype.trim`
(tab, LF, VT, FF, CR, space, NBSP, LS, PS, BOM). -/
def isJsWhitespace (c : Nat) : Bool :=
  c = 9 ∨ c = 10 ∨ c = 11 ∨ c = 12 ∨ c = 13 ∨ c = 32 ∨ c = 160 ∨
    c = 8232 ∨ c = 8233 ∨ c = 65279

/-- Drop leading JS whitespace. -/
def trimLeft : JsStr → JsStr
  | [] => []
  | c :: cs => if isJsWhitespace c then trimLeft cs else c :: cs

/-- `String.prototype.trim`: drop leading and trailing JS whitespace. -/
def jsTrim (s : JsStr) : JsStr := ((trimLeft s.reverse).reverse : JsStr) |> trimLeft

/-- ASCII case lowering of one code point (the fragment of
`String.prototype.toLowerCase` exercised by this service). -/
def lowerCp (c : Nat) : Nat := if 65 ≤ c ∧ c ≤ 90 then c + 32 else c

/-- `String.prototype.toLowerCase` on the ASCII fragment. -/
def jsToLower (s : JsStr) : JsStr := s.map lowerCp

/-- `String.prototype.split(sep)` for a single-code-point separator:
`"" ↦ [""]`, separators at the ends produce empty segments. -/
def splitAll (sep : Nat) : JsStr → List JsStr
  | [] => [[]]
  | c :: cs =>
    if c = sep then [] :: splitAll sep cs
    else
      match splitAll sep cs with
      | seg :: rest => (c :: seg) :: rest
      | [] => [[c]]

/-- Split at the first occurrence of `sep`: the part before it and,
when `sep` occurs, the part after it. -/
def splitFirst (sep : Nat) : JsStr → JsStr × Option JsStr
  | [] => ([], none)
  | c :: cs =>
    if c = sep then ([], some cs)
    else
      let p := splitFirst sep cs
      (c :: p.1, p.2)

/-- All code points are ASCII decimal digits. -/
def allDigits (s : JsStr) : Bool := s.all (fun c => 48 ≤ c ∧ c ≤ 57)

/-- Value of a string of ASCII decimal digits. -/
def digitsVal (s : JsStr) : Nat := s.foldl (fun a c => a * 10 + (c - 48)) 0

/-- Strip an optional leading `+`/`-` sign, returning the sign factor. -/
def jsSignSplit (t : JsStr) : Int × JsStr :=
  match t with
  | [] => (1, [])
  | c :: rest =>
    if c = 43 then (1, rest) else if c = 45 then (-1, rest) else (1, c :: rest)

/-- `Number(s)` followed by the `Number.isInteger` test: `some n` when the
string denotes the integer `n`, `none` when it denotes NaN or a non-integer.
Modelled on the decimal fragment `[+-]?digits(.digits)?` with JS whitespace
trimming and `"" ↦ 0`; hex/exponent/`Infinity` literals are outside the
fragment and map to `none`. -/
def jsNumberInt? (s : JsStr) : Option Int :=
  let t := jsTrim s
  if t = [] then some 0
  else
    let sr := jsSignSplit t
    let p := splitFirst 46 sr.2
    match p.2 with
    | none =>
      if p.1 ≠ [] ∧ allDigits p.1 then some (sr.1 * (digitsVal p.1 : Int)) else none
    | some fp =>
      if p.1 ≠ [] ∧ allDigits p.1 ∧ fp.all (fun c => c = 48) then
        some (sr.1 * (digitsVal p.1 : Int))
      else none

/-- Decimal digit string of a natural number, with structural fuel so the
definition reduces in the kernel; `natDigits` supplies sufficient fuel. -/
def natDigitsAux : Nat → Nat → JsStr
  | 0, _ => []
  | f + 1, n => if n < 10 then [48 + n] else natDigitsAux f (n / 10) ++ [48 + n % 10]

/-- Decimal digit string of a natural number (what `${n}` produces). -/
def natDigits (n : Nat) : JsStr := natDigitsAux (n + 1) n

/-- What JS template interpolation `${i}` produces for an integer number. -/
def intToJsStr (i : Int) : JsStr :=
  if i < 0 then 45 :: natDigits i.natAbs else natDigits i.toNat

/-- A Unicode scalar value: a code point that is not a surrogate.
Well-formed JS strings flowing through this service consist of these. -/
def ValidCp (c : Nat) : Prop := c < 0x110000 ∧ ¬(0xD800 ≤ c ∧ c < 0xE000)

instance (c : Nat) : Decidable (ValidCp c) := by unfold ValidCp; infer_instance

/-- Every code point of the string is a Unicode scalar value. -/
def ValidStr (s : JsStr) : Prop := ∀ c ∈ s, ValidCp c

instance (s : JsStr) : Decidable (ValidStr s) := by unfold ValidStr; infer_instance

/-- UTF-8 byte sequence of one scalar value (`Buffer.from` encoding). -/
def utf8EncodeCp (c : Nat) : List Nat :=
  if c < 0x80 then [c]
  else if c < 0x800 then [0xC0 + c / 64, 0x80 + c % 64]
  else if c < 0x10000 then [0xE0 + c / 4096, 0x80 + c / 64 % 64, 0x80 + c % 64]
  else [0xF0 + c / 262144, 0x80 + c / 4096 % 64, 0x80 + c / 64 % 64, 0x80 + c % 64]

/-- UTF-8 byte sequence of a string. -/
def utf8Encode (s : JsStr) : List Nat := (s.map utf8EncodeCp).flatten

/-- Decode one UTF-8-encoded scalar value from the front of a byte
sequence: first byte `b0`, remaining bytes `bs`; yields the scalar and the
bytes after it, or `none` when the front is not a valid encoding
(continuation-byte checks, overlong/surrogate/out-of-range exclusion). -/
def utf8Step (b0 : Nat) (bs : List Nat) : Option (Nat × List Nat) :=
  if b0 < 0x80 then some (b0, bs)
  else if b0 < 0xC2 then none
  else if b0 < 0xE0 then
    match bs with
    | b1 :: bs1 =>
      if 0x80 ≤ b1 ∧ b1 < 0xC0 then some ((b0 - 0xC0) * 64 + (b1 - 0x80), bs1) else none
    | [] => none
  else if b0 < 0xF0 then
    match bs with
    | b1 :: b2 :: bs2 =>
      if (0x80 ≤ b1 ∧ b1 < 0xC0) ∧ (0x80 ≤ b2 ∧ b2 < 0xC0) then
        if 0x800 ≤ (b0 - 0xE0) * 4096 + (b1 - 0x80) * 64 + (b2 - 0x80) ∧
            ¬(0xD800 ≤ (b0 - 0xE0) * 4096 + (b1 - 0x80) * 64 + (b2 - 0x80) ∧
              (b0 - 0xE0) * 4096 + (b1 - 0x80) * 64 + (b2 - 0x80) < 0xE000) then
          some ((b0 - 0xE0) * 4096 + (b1 - 0x80) * 64 + (b2 - 0x80), bs2)
        else none
      else none
    | _ => none
  else if b0 < 0xF5 then
    match bs with
    | b1 :: b2 :: b3 :: bs3 =>
      if (0x80 ≤ b1 ∧ b1 < 0xC0) ∧ (0x80 ≤ b2 ∧ b2 < 0xC0) ∧ (0x80 ≤ b3 ∧ b3 < 0xC0) then
        if 0x10000 ≤ (b0 - 0xF0) * 262144 + (b1 - 0x80) * 4096 + (b2 - 0x80) * 64 +
              (b3 - 0x80) ∧
            (b0 - 0xF0) * 262144 + (b1 - 0x80) * 4096 + (b2 - 0x80) * 64 +
              (b3 - 0x80) < 0x110000 then
          some ((b0 - 0xF0) * 262144 + (b1 - 0x80) * 4096 + (b2 - 0x80) * 64 + (b3 - 0x80),
            bs3)
        else none
      else none
    | _ => none
  else none

/-- UTF-8 decoding loop with structural fuel (so that it reduces in the
kernel); `utf8Decode` supplies sufficient fuel. -/
def utf8DecodeAux : Nat → List Nat → Option JsStr
  | _, [] => some []
  | 0, _ :: _ => none
  | f + 1, b0 :: bs =>
    match utf8Step b0 bs with
    | none => none
    | some cr => (utf8DecodeAux f cr.2).map (cr.1 :: ·)

/-- UTF-8 decoding of a byte sequence back to code points.  Invalid
sequences yield `none` (Node's `toString("utf8")` would substitute U+FFFD;
the sole consumer `parseToken` rejects the token on either modelling). -/
def utf8Decode (l : List Nat) : Option JsStr := utf8DecodeAux l.length l

/-- Code point of the base64url digit with value `n < 64`
(`A-Z a-z 0-9 - _`; total, clamping to `_` above 63). -/
def b64Char (n : Nat) : Nat :=
  if n < 26 then 65 + n
  else if n < 52 then 97 + (n - 26)
  else if n < 62 then 48 + (n - 52)
  else if n = 62 then 45
  else 95

/-- Value of a base64 digit code point; Node's decoder accepts both the
standard (`+ /`) and URL-safe (`- _`) alphabets.  `none` for
non-alphabet characters, which the lenient decoder skips. -/
def b64Val (c : Nat) : Option Nat :=
  if 65 ≤ c ∧ c ≤ 90 then some (c - 65)
  else if 97 ≤ c ∧ c ≤ 122 then some (c - 97 + 26)
  else if 48 ≤ c ∧ c ≤ 57 then some (c - 48 + 52)
  else if c = 45 ∨ c = 43 then some 62
  else if c = 95 ∨ c = 47 then some 63
  else none

/-- Unpadded base64url text of a byte sequence
(`Buffer.prototype.toString("base64url")`). -/
def b64EncodeBytes : List Nat → JsStr
  | b1 :: b2 :: b3 :: rest =>
    let w := b1 * 65536 + b2 * 256 + b3
    b64Char (w / 262144 % 64) :: b64Char (w / 4096 % 64) :: b64Char (w / 64 % 64) ::
      b64Char (w % 64) :: b64EncodeBytes rest
  | [b1, b2] =>
    let w := (b1 * 256 + b2) * 4
    [b64Char (w / 4096 % 64), b64Char (w / 64 % 64), b64Char (w % 64)]
  | [b1] => [b64Char (b1 / 4), b64Char (b1 % 4 * 16)]
  | [] => []

/-- Bytes determined by a sequence of base64 digit values: groups of four
sextets give three bytes; a trailing group of three gives two bytes, of two
gives one byte, of one gives none (Node's forgiving decoder). -/
def b64DecodeSextets : List Nat → List Nat
  | s1 :: s2 :: s3 :: s4 :: rest =>
    (s1 * 4 + s2 / 16) :: (s2 % 16 * 16 + s3 / 4) :: (s3 % 4 * 64 + s4) ::
      b64DecodeSextets rest
  | [s1, s2, s3] => [s1 * 4 + s2 / 16, s2 % 16 * 16 + s3 / 4]
  | [s1, s2] => [s1 * 4 + s2 / 16]
  | [_] => []
  | [] => []

/-- `Buffer.from(token, "base64url")`: skip non-alphabet characters, then
decode the sextet stream. -/
def b64urlDecode (token : JsStr) : List Nat := b64DecodeSextets (token.filterMap b64Val)

/-- `Buffer.from(payload).toString("base64url")`. -/
def b64urlEncode (bytes : List Nat) : JsStr := b64EncodeBytes bytes

/-! ## Token codec (`createToken` / `parseToken`, server.js:91-107) -/

/-- `createToken`: base64url of the payload `` `${user.id}:${user.email}:${Date.now()}` ``.
The issuance clock read `Date.now()` is the `nowMs` parameter. -/
def createToken (id : Int) (email : JsStr) (nowMs : Nat) : JsStr :=
  b64urlEncode (utf8Encode (intToJsStr id ++ (58 :: (email ++ (58 :: natDigits nowMs)))))

/-- The decoded payload string of a token:
`Buffer.from(token, "base64url").toString("utf8")`. -/
def tokenPayload (token : JsStr) : Option JsStr := utf8Decode (b64urlDecode token)

/-- Claims extraction from a decoded payload:
`const [idRaw, email] = decoded.split(":")`, `Number(idRaw)` integer check,
and the `!email` falsiness check (missing or empty segment). -/
def claimsOfPayload (decoded : JsStr) : Option (Int × JsStr) :=
  let segs := splitAll 58 decoded
  match jsNumberInt? (segs.headD []), segs[1]? with
  | some id, some email => if email = [] then none else some (id, email)
  | _, _ => none

/-- `parseToken`: decode base64url + UTF-8, split on `":"`, require an
integer id and a truthy email segment; `null` (here `none`) otherwise.
Total — every failure path returns `none`, nothing is thrown. -/
def parseToken (token : JsStr) : Option (Int × JsStr) :=
  match tokenPayload token with
  | none => none
  | some decoded => claimsOfPayload decoded

/-! ## Data model (tables `posts` and `users`, server.js:47-63) -/

/-- A row of the `posts` table (also the shape selected by every post query:
`id, title, content, created_at AS createdAt, updated_at AS updatedAt`).
Timestamps are the millisecond values underlying the ISO-8601 strings. -/
structure Post where
  id : Int
  title : JsStr
  content : JsStr
  createdAt : Nat
  updatedAt : Nat
deriving DecidableEq

/-- A row of the `users` table. -/
structure User where
  id : Int
  name : JsStr
  email : JsStr
  password : JsStr
  createdAt : Nat
  updatedAt : Nat
deriving DecidableEq

/-- The SQLite database state.  `nextPostId`/`nextUserId` model the
`AUTOINCREMENT` sequence: the rowid the next `INSERT` will receive. -/
structure Db where
  posts : List Post
  users : List User
  nextPostId : Int
  nextUserId : Int
deriving DecidableEq

/-- The user shape exposed to clients (`mapUser`, server.js:84-89):
id, name, email, createdAt — no password field. -/
structure UserOut where
  id : Int
  name : JsStr
  email : JsStr
  createdAt : Nat
deriving DecidableEq

/-- `mapUser`: project a user row to its client-facing shape. -/
def mapUser (u : User) : UserOut := ⟨u.id, u.name, u.email, u.createdAt⟩

/-- Success payloads of the handlers under verification. -/
inductive Payload where
  /-- A post row returned by a guarded singular `SELECT` (get-post). -/
  | postOut (p : Post)
  /-- The unguarded re-read after an insert/update (`createdPost`/`updatedPost`
  may be `undefined` in the source; the code sends it without checking). -/
  | postRead (p : Option Post)
  /-- The list-posts payload. -/
  | postList (l : List Post)
  /-- The delete-post payload `{ id }`. -/
  | deleted (id : Int)
  /-- The signup/login payload `{ token, user }`. -/
  | auth (token : JsStr) (user : UserOut)
  /-- The me payload `{ user }`. -/
  | me (user : UserOut)
deriving DecidableEq

/-- A response envelope: `sendSuccess` (status + data) or `sendError`
(status + error string). -/
inductive Resp where
  | success (status : Nat) (data : Payload)
  | failure (status : Nat) (error : JsStr)
deriving DecidableEq

/-- The HTTP status of a response. -/
def Resp.status : Resp → Nat
  | .success s _ => s
  | .failure s _ => s

/-! ## Validation layer and storage operations -/

/-- `String(x || "")` for an optional string field of a JSON body
(absent ↦ empty string; non-string field values are outside the model). -/
def orEmpty (x : Option JsStr) : JsStr := x.getD []

/-- `validatePostInput` (server.js:24-35): trim `title` and `content`,
require both non-empty. -/
def validatePostInput (title? content? : Option JsStr) : Except JsStr (JsStr × JsStr) :=
  let title := jsTrim (orEmpty title?)
  let content := jsTrim (orEmpty content?)
  if title = [] then .error (js "title is required.")
  else if content = [] then .error (js "content is required.")
  else .ok (title, content)

/-- `SELECT ... FROM posts WHERE id = ?` followed by `.get`. -/
def Db.findPost (s : Db) (id : Int) : Option Post :=
  s.posts.find? (fun p => p.id == id)

/-- `SELECT ... FROM users WHERE email = ?` followed by `.get`. -/
def Db.findUserByEmail (s : Db) (email : JsStr) : Option User :=
  s.users.find? (fun u => u.email == email)

/-- `SELECT ... FROM users WHERE id = ?` followed by `.get`. -/
def Db.findUserById (s : Db) (id : Int) : Option User :=
  s.users.find? (fun u => u.id == id)

/-- `SELECT ... FROM users WHERE id = ? AND email = ?` followed by `.get`. -/
def Db.findUserByIdEmail (s : Db) (id : Int) (email : JsStr) : Option User :=
  s.users.find? (fun u => u.id == id && u.email == email)

/-- `INSERT INTO users ...` through the storage layer: the `UNIQUE`
constraint on `email` turns a duplicate into a typed failure
(`SqliteError: UNIQUE constraint failed`), never a crash.  On success
returns `lastInsertRowid` and the new state. -/
def Db.insertUser (s : Db) (name email password : JsStr) (now : Nat) :
    Except JsStr (Int × Db) :=
  if s.users.any (fun u => u.email == email) then
    .error (js "UNIQUE constraint failed: users.email")
  else
    .ok (s.nextUserId,
      ⟨s.posts, s.users ++ [⟨s.nextUserId, name, email, password, now, now⟩],
        s.nextPostId, s.nextUserId + 1⟩)

/-! ## Post handlers (server.js:125-234) -/

/-- `GET /api/posts`: all rows, `ORDER BY id DESC`. -/
def listPostsHandler (s : Db) : Resp :=
  .success 200 (.postList (s.posts.insertionSort (fun a b => b.id ≤ a.id)))

/-- `GET /api/posts/:id`: 422 on a non-integer id, 404 when the row is
absent, otherwise 200 with the row. -/
def getPostHandler (s : Db) (idParam : JsStr) : Resp :=
  match jsNumberInt? idParam with
  | none => .failure 422 (js "Invalid id.")
  | some id =>
    match s.findPost id with
    | none => .failure 404 (js "Post not found.")
    | some p => .success 200 (.postOut p)

/-- `POST /api/posts`: validate, `INSERT` with `created_at = updated_at =
now`, re-read by `lastInsertRowid`, respond 201 with the re-read row. -/
def createPostHandler (s : Db) (title? content? : Option JsStr) (now : Nat) :
    Resp × Db :=
  match validatePostInput title? content? with
  | .error e => (.failure 422 e, s)
  | .ok tc =>
    let s' : Db := ⟨s.posts ++ [⟨s.nextPostId, tc.1, tc.2, now, now⟩],
      s.users, s.nextPostId + 1, s.nextUserId⟩
    (.success 201 (.postRead (s'.findPost s.nextPostId)), s')

/-- `PUT /api/posts/:id`: validate id and body, `UPDATE ... WHERE id = ?`
(404 when zero rows changed), re-read and respond 200. -/
def updatePostHandler (s : Db) (idParam : JsStr) (title? content? : Option JsStr)
    (now : Nat) : Resp × Db :=
  match jsNumberInt? idParam with
  | none => (.failure 422 (js "Invalid id."), s)
  | some id =>
    match validatePostInput title? content? with
    | .error e => (.failure 422 e, s)
    | .ok tc =>
      let changes := s.posts.countP (fun p => p.id == id)
      let s' : Db := ⟨s.posts.map (fun p =>
          if p.id == id then ⟨p.id, tc.1, tc.2, p.createdAt, now⟩ else p),
        s.users, s.nextPostId, s.nextUserId⟩
      if changes = 0 then (.failure 404 (js "Post not found."), s')
      else (.success 200 (.postRead (s'.findPost id)), s')

/-- `DELETE /api/posts/:id`: parse id, `DELETE ... WHERE id = ?`, 404 when
zero rows changed, otherwise 200 with `{ id }`. -/
def deletePostHandler (s : Db) (idParam : JsStr) : Resp × Db :=
  match jsNumberInt? idParam with
  | none => (.failure 422 (js "Invalid id."), s)
  | some id =>
    let changes := s.posts.countP (fun p => p.id == id)
    let s' : Db := ⟨s.posts.filter (fun p => !(p.id == id)),
      s.users, s.nextPostId, s.nextUserId⟩
    if changes = 0 then (.failure 404 (js "Post not found."), s')
    else (.success 200 (.deleted id), s')

/-! ## Auth handlers (server.js:236-325) -/

/-- `POST /api/auth/signup`: trim all three fields and lowercase the
email; 422 when any is empty; 409 when the email already has a row; else
insert through the constrained storage layer (a constraint violation is
caught by the handler's `try` and becomes a 500 envelope), re-read the new
row and respond 201 with `{ token, user }`.  The source reads the clock
twice (`new Date()` for the row, `Date.now()` inside `createToken`); both
reads are modelled by `now`, which no verified property depends on. -/
def signupHandler (s : Db) (name? email? password? : Option JsStr) (now : Nat) :
    Resp × Db :=
  let name := jsTrim (orEmpty name?)
  let email := jsToLower (jsTrim (orEmpty email?))
  let password := jsTrim (orEmpty password?)
  if name = [] ∨ email = [] ∨ password = [] then
    (.failure 422 (js "name, email, password are required."), s)
  else
    match s.findUserByEmail email with
    | some _ => (.failure 409 (js "This email is already registered."), s)
    | none =>
      match s.insertUser name email password now with
      | .error e => (.failure 500 e, s)
      | .ok (rowid, s') =>
        match s'.findUserById rowid with
        | none =>
          -- `createToken(undefined)` would throw; the handler's catch maps it to 500.
          (.failure 500 (js "Cannot read properties of undefined (reading id)"), s')
        | some u =>
          (.success 201 (.auth (createToken u.id u.email now) (mapUser u)), s')

/-- `POST /api/auth/login`: trim + lowercase email, trim password; 422 when
either is empty; look up by email; 401 when absent or the stored password
differs (exact string comparison); else 200 with `{ token, user }`. -/
def loginHandler (s : Db) (email? password? : Option JsStr) (now : Nat) : Resp :=
  let email := jsToLower (jsTrim (orEmpty email?))
  let password := jsTrim (orEmpty password?)
  if email = [] ∨ password = [] then
    .failure 422 (js "email and password are required.")
  else
    match s.findUserByEmail email with
    | none => .failure 401 (js "Invalid email or password.")
    | some u =>
      if u.password ≠ password then .failure 401 (js "Invalid email or password.")
      else .success 200 (.auth (createToken u.id u.email now) (mapUser u))

/-- `readBearerToken` (server.js:109-115): `String(authorization || "")`,
require the literal prefix `"Bearer "`, return the trimmed remainder. -/
def readBearerToken (auth? : Option JsStr) : Option JsStr :=
  let header := orEmpty auth?
  if (js "Bearer ").isPrefixOf header then some (jsTrim (header.drop 7)) else none

/-- `GET /api/auth/me`: 401 when the header carries no (non-empty) bearer
token, 401 when the token fails to decode, 401 when the decoded
`(id, email)` pair matches no user row, otherwise 200 with `{ user }`. -/
def meHandler (s : Db) (auth? : Option JsStr) : Resp :=
  match readBearerToken auth? with
  | none => .failure 401 (js "Bearer token is required.")
  | some token =>
    if token = [] then .failure 401 (js "Bearer token is required.")
    else
      match parseToken token with
      | none => .failure 401 (js "Invalid token.")
      | some claims =>
        match s.findUserByIdEmail claims.1 claims.2 with
        | none => .failure 401 (js "Invalid token.")
        | some u => .success 200 (.me (mapUser u))

/-! ## Well-formedness invariants of the store -/

/-- Post rows have pairwise distinct ids, all below the autoincrement
cursor (every insert goes through it and it never decreases). -/
def PostsWf (s : Db) : Prop :=
  s.posts.Pairwise (fun p q => p.id ≠ q.id) ∧ ∀ p ∈ s.posts, p.id < s.nextPostId

/-- User rows have pairwise distinct ids below the autoincrement cursor. -/
def UsersWf (s : Db) : Prop :=
  s.users.Pairwise (fun u v => u.id ≠ v.id) ∧ ∀ u ∈ s.users, u.id < s.nextUserId

/-- Stored emails are lowercase-normalised: the seed user's email is
lowercase and signup stores `email.trim().toLowerCase()`. -/
def EmailsLower (s : Db) : Prop := ∀ u ∈ s.users, jsToLower u.email = u.email

instance (s : Db) : Decidable (PostsWf s) := by unfold PostsWf; infer_instance

instance (s : Db) : Decidable (UsersWf s) := by unfold UsersWf; infer_instance

instance (s : Db) : Decidable (EmailsLower s) := by unfold EmailsLower; infer_instance

/-! ## Codec lemmas -/

theorem b64Val_b64Char : ∀ n < 64, b64Val (b64Char n) = some n := by decide

theorem b64Val_b64Char_mod (n : Nat) : b64Val (b64Char (n % 64)) = some (n % 64) :=
  b64Val_b64Char _ (Nat.mod_lt _ (by norm_num))

/-- Decoding inverts encoding on byte sequences. -/
theorem b64url_roundtrip (bs : List Nat) (h : ∀ b ∈ bs, b < 256) :
    b64urlDecode (b64urlEncode bs) = bs := by
  induction bs using b64EncodeBytes.induct with
  | case1 b1 b2 b3 rest ih =>
    have hb1 : b1 < 256 := h _ (by simp)
    have hb2 : b2 < 256 := h _ (by simp)
    have hb3 : b3 < 256 := h _ (by simp)
    have ih' := ih (fun b hb => h b (by simp [hb]))
    simp only [b64urlDecode, b64urlEncode, b64EncodeBytes, List.filterMap_cons,
      b64Val_b64Char_mod] at ih' ⊢
    simp only [b64DecodeSextets, ih', List.cons.injEq]
    exact ⟨by omega, by omega, by omega, trivial⟩
  | case2 b1 b2 =>
    have hb1 : b1 < 256 := h _ (by simp)
    have hb2 : b2 < 256 := h _ (by simp)
    simp only [b64urlDecode, b64urlEncode, b64EncodeBytes, List.filterMap_cons,
      b64Val_b64Char_mod, List.filterMap_nil]
    simp only [b64DecodeSextets, List.cons.injEq]
    exact ⟨by omega, by omega, trivial⟩
  | case3 b1 =>
    have hb1 : b1 < 256 := h _ (by simp)
    have h1 : b1 / 4 = (b1 / 4) % 64 := by omega
    have h2 : b1 % 4 * 16 = (b1 % 4 * 16) % 64 := by omega
    simp only [b64urlDecode, b64urlEncode, b64EncodeBytes, List.filterMap_nil]
    rw [h1, h2]
    simp only [List.filterMap_cons, b64Val_b64Char_mod, List.filterMap_nil]
    simp only [b64DecodeSextets, List.cons.injEq]
    exact ⟨by omega, trivial⟩
  | case4 => rfl

set_option maxRecDepth 4000 in
/-- A successful `utf8Step` consumes at least the first byte. -/
theorem utf8Step_length {b0 : Nat} {bs : List Nat} {cr : Nat × List Nat}
    (h : utf8Step b0 bs = some cr) : cr.2.length ≤ bs.length := by
  unfold utf8Step at h
  repeat' split at h
  all_goals (cases h)
  all_goals (try simp)
  all_goals omega

/-- The decode loop is independent of the fuel once it covers the input. -/
theorem utf8DecodeAux_fuel : ∀ (f1 f2 : Nat) (l : List Nat),
    l.length ≤ f1 → l.length ≤ f2 → utf8DecodeAux f1 l = utf8DecodeAux f2 l := by
  intro f1
  induction f1 with
  | zero =>
    intro f2 l h1 _
    have : l = [] := List.eq_nil_of_length_eq_zero (by omega)
    subst this
    cases f2 <;> rfl
  | succ g ih =>
    intro f2 l h1 h2
    cases l with
    | nil => cases f2 <;> rfl
    | cons b0 bs =>
      cases f2 with
      | zero => simp at h2
      | succ g2 =>
        cases hstep : utf8Step b0 bs with
        | none => simp only [utf8DecodeAux, hstep]
        | some cr =>
          have hlen := utf8Step_length hstep
          simp only [List.length_cons] at h1 h2
          simp only [utf8DecodeAux, hstep]
          rw [ih g2 cr.2 (by omega) (by omega)]

set_option maxRecDepth 8000 in
/-- `utf8Step` recovers a scalar value from its own encoding. -/
theorem utf8Step_encodeCp (c : Nat) (hc : ValidCp c) (bs : List Nat) :
    ∃ b0 t, utf8EncodeCp c = b0 :: t ∧ utf8Step b0 (t ++ bs) = some (c, bs) := by
  obtain ⟨hlt, hsur⟩ := hc
  by_cases h1 : c < 0x80
  · refine ⟨c, [], by simp [utf8EncodeCp, h1], ?_⟩
    simp only [List.nil_append, utf8Step, if_pos h1]
  · by_cases h2 : c < 0x800
    · refine ⟨0xC0 + c / 64, [0x80 + c % 64], by simp [utf8EncodeCp, h1, h2], ?_⟩
      simp only [List.cons_append, List.nil_append, utf8Step]
      rw [if_neg (by omega), if_neg (by omega), if_pos (by omega),
        if_pos (show 0x80 ≤ 0x80 + c % 64 ∧ 0x80 + c % 64 < 0xC0 by omega)]
      congr 2
      omega
    · by_cases h3 : c < 0x10000
      · refine ⟨0xE0 + c / 4096, [0x80 + c / 64 % 64, 0x80 + c % 64],
          by simp [utf8EncodeCp, h1, h2, h3], ?_⟩
        simp only [List.cons_append, List.nil_append, utf8Step]
        rw [if_neg (by omega), if_neg (by omega), if_neg (by omega), if_pos (by omega),
          if_pos (show (0x80 ≤ 0x80 + c / 64 % 64 ∧ 0x80 + c / 64 % 64 < 0xC0) ∧
            0x80 ≤ 0x80 + c % 64 ∧ 0x80 + c % 64 < 0xC0 by omega),
          if_pos (by constructor <;> omega)]
        congr 2
        omega
      · refine ⟨0xF0 + c / 262144, [0x80 + c / 4096 % 64, 0x80 + c / 64 % 64, 0x80 + c % 64],
          by simp [utf8EncodeCp, h1, h2, h3], ?_⟩
        simp only [List.cons_append, List.nil_append, utf8Step]
        rw [if_neg (by omega), if_neg (by omega), if_neg (by omega), if_neg (by omega),
          if_pos (by omega),
          if_pos (show (0x80 ≤ 0x80 + c / 4096 % 64 ∧ 0x80 + c / 4096 % 64 < 0xC0) ∧
            (0x80 ≤ 0x80 + c / 64 % 64 ∧ 0x80 + c / 64 % 64 < 0xC0) ∧
            0x80 ≤ 0x80 + c % 64 ∧ 0x80 + c % 64 < 0xC0 by omega),
          if_pos (by constructor <;> omega)]
        congr 2
        omega

/-- Peeling one encoded scalar value off the front of a byte stream. -/
theorem utf8Decode_encodeCp_append (c : Nat) (hc : ValidCp c) (bs : List Nat) :
    utf8Decode (utf8EncodeCp c ++ bs) = (utf8Decode bs).map (c :: ·) := by
  obtain ⟨b0, t, henc, hstep⟩ := utf8Step_encodeCp c hc bs
  rw [utf8Decode, henc]
  have hlen : (b0 :: t ++ bs).length = (t ++ bs).length + 1 := by simp
  rw [hlen]
  simp only [List.cons_append] at hstep ⊢
  simp only [utf8DecodeAux, hstep]
  rw [utf8DecodeAux_fuel (t ++ bs).length bs.length bs (by simp) (by omega)]
  rfl

/-- UTF-8 decoding inverts encoding on strings of scalar values. -/
theorem utf8_roundtrip (s : JsStr) (hs : ValidStr s) :
    utf8Decode (utf8Encode s) = some s := by
  induction s with
  | nil => rfl
  | cons c cs ih =>
    have hc := hs c (by simp)
    have ih' := ih (fun d hd => hs d (by simp [hd]))
    simp only [utf8Encode, List.map_cons, List.flatten_cons]
    rw [show (utf8EncodeCp c ++ (List.map utf8EncodeCp cs).flatten) =
      utf8EncodeCp c ++ utf8Encode cs from rfl]
    rw [utf8Decode_encodeCp_append c hc, ih']
    rfl

theorem utf8EncodeCp_lt256 {c : Nat} (hc : c < 0x110000) :
    ∀ b ∈ utf8EncodeCp c, b < 256 := by
  intro b hb
  unfold utf8EncodeCp at hb
  repeat' split at hb
  all_goals simp only [List.mem_cons, List.mem_singleton, List.not_mem_nil, or_false] at hb
  all_goals omega

theorem utf8Encode_lt256 (s : JsStr) (hs : ValidStr s) : ∀ b ∈ utf8Encode s, b < 256 := by
  intro b hb
  simp only [utf8Encode, List.mem_flatten, List.mem_map] at hb
  obtain ⟨l, ⟨c, hc, rfl⟩, hbl⟩ := hb
  exact utf8EncodeCp_lt256 (hs c hc).1 b hbl

/-! ## String and number parsing lemmas -/

theorem trimLeft_eq_self {s : JsStr} (h : ∀ c ∈ s, isJsWhitespace c = false) :
    trimLeft s = s := by
  cases s with
  | nil => rfl
  | cons c cs => simp [trimLeft, h c (by simp)]

theorem jsTrim_eq_self {s : JsStr} (h : ∀ c ∈ s, isJsWhitespace c = false) :
    jsTrim s = s := by
  unfold jsTrim
  rw [trimLeft_eq_self (fun c hc => h c (List.mem_reverse.mp hc)), List.reverse_reverse,
    trimLeft_eq_self h]

theorem splitFirst_not_mem {sep : Nat} : ∀ {s : JsStr}, sep ∉ s →
    splitFirst sep s = (s, none) := by
  intro s
  induction s with
  | nil => intro _; rfl
  | cons c cs ih =>
    intro h
    have hc : c ≠ sep := fun he => h (he ▸ List.mem_cons_self c cs)
    simp [splitFirst, hc, ih (fun hm => h (List.mem_cons_of_mem c hm))]

theorem splitAll_not_mem {sep : Nat} : ∀ {s : JsStr}, sep ∉ s →
    splitAll sep s = [s] := by
  intro s
  induction s with
  | nil => intro _; rfl
  | cons c cs ih =>
    intro h
    have hc : ¬(c = sep) := fun he => h (he ▸ List.mem_cons_self c cs)
    rw [splitAll, if_neg hc, ih (fun hm => h (List.mem_cons_of_mem c hm))]

theorem splitAll_append {sep : Nat} (ys : JsStr) : ∀ {xs : JsStr}, sep ∉ xs →
    splitAll sep (xs ++ sep :: ys) = xs :: splitAll sep ys := by
  intro xs
  induction xs with
  | nil => intro _; simp [splitAll]
  | cons c cs ih =>
    intro h
    have hc : ¬(c = sep) := fun he => h (he ▸ List.mem_cons_self c cs)
    rw [List.cons_append, splitAll, if_neg hc, ih (fun hm => h (List.mem_cons_of_mem c hm))]

theorem digitsVal_append_digit (xs : JsStr) (d : Nat) :
    digitsVal (xs ++ [d]) = digitsVal xs * 10 + (d - 48) := by
  simp [digitsVal, List.foldl_append]

theorem natDigitsAux_spec : ∀ (f n : Nat), n < f →
    natDigitsAux f n ≠ [] ∧ (∀ c ∈ natDigitsAux f n, 48 ≤ c ∧ c ≤ 57) ∧
      digitsVal (natDigitsAux f n) = n := by
  intro f
  induction f with
  | zero => intro n h; omega
  | succ g ih =>
    intro n h
    by_cases h10 : n < 10
    · refine ⟨by simp [natDigitsAux, h10], ?_, ?_⟩
      · intro c hc
        simp [natDigitsAux, h10] at hc
        omega
      · simp [natDigitsAux, h10, digitsVal]
    · obtain ⟨hne, hdig, hval⟩ := ih (n / 10) (by omega)
      rw [natDigitsAux, if_neg h10]
      refine ⟨by simp, ?_, ?_⟩
      · intro c hc
        rcases List.mem_append.mp hc with hm | hm
        · exact hdig c hm
        · simp at hm
          omega
      · rw [digitsVal_append_digit, hval]
        omega

theorem natDigits_spec (n : Nat) :
    natDigits n ≠ [] ∧ (∀ c ∈ natDigits n, 48 ≤ c ∧ c ≤ 57) ∧
      digitsVal (natDigits n) = n :=
  natDigitsAux_spec (n + 1) n (by omega)

theorem digit_not_ws {c : Nat} (h1 : 48 ≤ c) (h2 : c ≤ 57) : isJsWhitespace c = false := by
  simp only [isJsWhitespace, decide_eq_false_iff_not]
  omega

theorem jsNumberInt?_natDigits (n : Nat) : jsNumberInt? (natDigits n) = some (n : Int) := by
  obtain ⟨hne, hdig, hval⟩ := natDigits_spec n
  obtain ⟨c, cs, hcons⟩ := List.exists_cons_of_ne_nil hne
  have htrim : jsTrim (natDigits n) = natDigits n :=
    jsTrim_eq_self (fun c hc => digit_not_ws (hdig c hc).1 (hdig c hc).2)
  have hd : 48 ≤ c ∧ c ≤ 57 := hdig c (by rw [hcons]; simp)
  have hnd : (46 : Nat) ∉ natDigits n := fun hm => by
    have := hdig 46 hm
    omega
  have hsign : jsSignSplit (natDigits n) = (1, natDigits n) := by
    rw [hcons, jsSignSplit, if_neg (by omega), if_neg (by omega)]
  have hall : allDigits (natDigits n) = true :=
    List.all_eq_true.mpr (fun c hc => decide_eq_true ⟨(hdig c hc).1, (hdig c hc).2⟩)
  simp only [jsNumberInt?, htrim, if_neg hne, hsign, splitFirst_not_mem hnd]
  rw [if_pos ⟨hne, hall⟩, hval]
  simp

theorem jsNumberInt?_intToJsStr (i : Int) : jsNumberInt? (intToJsStr i) = some i := by
  by_cases hi : i < 0
  · obtain ⟨hne, hdig, hval⟩ := natDigits_spec i.natAbs
    unfold intToJsStr
    rw [if_pos hi]
    have htrim : jsTrim (45 :: natDigits i.natAbs) = 45 :: natDigits i.natAbs := by
      refine jsTrim_eq_self ?_
      intro c hc
      rcases List.mem_cons.mp hc with rfl | hm
      · simp [isJsWhitespace]
      · exact digit_not_ws (hdig c hm).1 (hdig c hm).2
    have hnd : (46 : Nat) ∉ natDigits i.natAbs := fun hm => by
      have := hdig 46 hm
      omega
    have hsign : jsSignSplit (45 :: natDigits i.natAbs) = (-1, natDigits i.natAbs) := by
      rw [jsSignSplit, if_neg (by omega), if_pos rfl]
    have hall : allDigits (natDigits i.natAbs) = true :=
      List.all_eq_true.mpr (fun c hc => decide_eq_true ⟨(hdig c hc).1, (hdig c hc).2⟩)
    simp only [jsNumberInt?, htrim, if_neg (List.cons_ne_nil 45 (natDigits i.natAbs)),
      hsign, splitFirst_not_mem hnd]
    rw [if_pos ⟨hne, hall⟩, hval]
    have hv : (-1 : Int) * (i.natAbs : Int) = i := by omega
    rw [hv]
  · unfold intToJsStr
    rw [if_neg hi, jsNumberInt?_natDigits]
    have hv : ((i.toNat : Nat) : Int) = i := by omega
    rw [hv]

/-! ## Lookup and token lemmas -/

theorem find?_eq_some_of_unique {α : Type} (p : α → Bool) {l : List α} {u : α}
    (hu : u ∈ l) (hpu : p u = true) (huniq : ∀ v ∈ l, p v = true → v = u) :
    l.find? p = some u := by
  induction l with
  | nil => cases hu
  | cons a l ih =>
    by_cases ha : p a = true
    · rw [List.find?_cons_of_pos _ ha, huniq a (by simp) ha]
    · rw [List.find?_cons_of_neg _ (by simpa using ha)]
      rcases List.mem_cons.mp hu with rfl | hm
      · exact absurd hpu ha
      · exact ih hm (fun v hv hpv => huniq v (List.mem_cons_of_mem a hv) hpv)

theorem mem_key_inj {α β : Type} (key : α → β) {l : List α}
    (h : l.Pairwise (fun a b => key a ≠ key b)) {u v : α} (hu : u ∈ l) (hv : v ∈ l)
    (hk : key u = key v) : u = v := by
  by_contra hne
  exact List.Pairwise.forall (fun a b hab => fun he => hab he.symm) h hu hv hne hk

theorem b64Char_bounds (n : Nat) : 45 ≤ b64Char n ∧ b64Char n ≤ 122 := by
  unfold b64Char
  split_ifs <;> omega

theorem b64EncodeBytes_bounds : ∀ (bs : List Nat), ∀ c ∈ b64EncodeBytes bs,
    45 ≤ c ∧ c ≤ 122 := by
  intro bs
  induction bs using b64EncodeBytes.induct with
  | case1 b1 b2 b3 rest ih =>
    intro c hc
    simp only [b64EncodeBytes, List.mem_cons] at hc
    rcases hc with rfl | rfl | rfl | rfl | hm
    · exact b64Char_bounds _
    · exact b64Char_bounds _
    · exact b64Char_bounds _
    · exact b64Char_bounds _
    · exact ih c hm
  | case2 b1 b2 =>
    intro c hc
    simp only [b64EncodeBytes, List.mem_cons, List.not_mem_nil, or_false] at hc
    rcases hc with rfl | rfl | rfl <;> exact b64Char_bounds _
  | case3 b1 =>
    intro c hc
    simp only [b64EncodeBytes, List.mem_cons, List.not_mem_nil, or_false] at hc
    rcases hc with rfl | rfl <;> exact b64Char_bounds _
  | case4 => intro c hc; cases hc

theorem token_char_not_ws {c : Nat} (h1 : 45 ≤ c) (h2 : c ≤ 122) :
    isJsWhitespace c = false := by
  simp only [isJsWhitespace, decide_eq_false_iff_not]
  omega

theorem jsTrim_b64 (bs : List Nat) : jsTrim (b64EncodeBytes bs) = b64EncodeBytes bs :=
  jsTrim_eq_self (fun c hc =>
    token_char_not_ws (b64EncodeBytes_bounds bs c hc).1 (b64EncodeBytes_bounds bs c hc).2)

theorem utf8EncodeCp_ne_nil (c : Nat) : utf8EncodeCp c ≠ [] := by
  unfold utf8EncodeCp
  split_ifs <;> simp

theorem utf8Encode_ne_nil {s : JsStr} (h : s ≠ []) : utf8Encode s ≠ [] := by
  obtain ⟨c, cs, rfl⟩ := List.exists_cons_of_ne_nil h
  simp only [utf8Encode, List.map_cons, List.flatten_cons]
  intro hcontra
  exact utf8EncodeCp_ne_nil c (List.append_eq_nil.mp hcontra).1

theorem b64EncodeBytes_ne_nil : ∀ {bs : List Nat}, bs ≠ [] → b64EncodeBytes bs ≠ [] := by
  intro bs h
  match bs with
  | b1 :: b2 :: b3 :: rest => simp [b64EncodeBytes]
  | [b1, b2] => simp [b64EncodeBytes]
  | [b1] => simp [b64EncodeBytes]
  | [] => exact absurd rfl h

theorem createToken_ne_nil (id : Int) (email : JsStr) (ts : Nat) :
    createToken id email ts ≠ [] := by
  unfold createToken b64urlEncode
  exact b64EncodeBytes_ne_nil (utf8Encode_ne_nil (by simp))

theorem createToken_payload_valid (id : Int) (email : JsStr) (hval : ValidStr email) :
    ∀ ts, ValidStr (intToJsStr id ++ (58 :: (email ++ (58 :: natDigits ts)))) := by
  intro ts c hc
  have hdigCp : ∀ d, 48 ≤ d → d ≤ 57 → ValidCp d := fun d h1 h2 => ⟨by omega, by omega⟩
  rcases List.mem_append.mp hc with hm | hm
  · unfold intToJsStr at hm
    split_ifs at hm with hneg
    · rcases List.mem_cons.mp hm with rfl | hm2
      · exact ⟨by omega, by omega⟩
      · have := (natDigits_spec _).2.1 c hm2
        exact hdigCp c this.1 this.2
    · have := (natDigits_spec _).2.1 c hm
      exact hdigCp c this.1 this.2
  · rcases List.mem_cons.mp hm with rfl | hm2
    · exact ⟨by omega, by omega⟩
    · rcases List.mem_append.mp hm2 with hm3 | hm3
      · exact hval c hm3
      · rcases List.mem_cons.mp hm3 with rfl | hm4
        · exact ⟨by omega, by omega⟩
        · have := (natDigits_spec _).2.1 c hm4
          exact hdigCp c this.1 this.2

theorem intToJsStr_no_colon (id : Int) : (58 : Nat) ∉ intToJsStr id := by
  intro hm
  unfold intToJsStr at hm
  split_ifs at hm with hneg
  · rcases List.mem_cons.mp hm with h | h
    · omega
    · have := (natDigits_spec _).2.1 58 h
      omega
  · have := (natDigits_spec _).2.1 58 hm
    omega

theorem natDigits_no_colon (n : Nat) : (58 : Nat) ∉ natDigits n := by
  intro hm
  have := (natDigits_spec n).2.1 58 hm
  omega

theorem parseToken_createToken (id : Int) (email : JsStr) (ts : Nat)
    (hval : ValidStr email) (hcolon : (58 : Nat) ∉ email) (hne : email ≠ []) :
    parseToken (createToken id email ts) = some (id, email) := by
  have hpv := createToken_payload_valid id email hval ts
  unfold parseToken tokenPayload createToken
  rw [show b64urlEncode (utf8Encode (intToJsStr id ++ (58 :: (email ++ (58 :: natDigits ts))))) =
    b64EncodeBytes (utf8Encode (intToJsStr id ++ (58 :: (email ++ (58 :: natDigits ts))))) from rfl]
  rw [show b64urlDecode (b64EncodeBytes (utf8Encode (intToJsStr id ++ (58 :: (email ++ (58 :: natDigits ts)))))) =
    b64urlDecode (b64urlEncode (utf8Encode (intToJsStr id ++ (58 :: (email ++ (58 :: natDigits ts)))))) from rfl]
  rw [b64url_roundtrip _ (utf8Encode_lt256 _ hpv), utf8_roundtrip _ hpv]
  show claimsOfPayload (intToJsStr id ++ (58 :: (email ++ (58 :: natDigits ts)))) =
    some (id, email)
  unfold claimsOfPayload
  rw [splitAll_append _ (intToJsStr_no_colon id), splitAll_append _ hcolon,
    splitAll_not_mem (natDigits_no_colon ts)]
  simp only [List.headD_cons, List.getElem?_cons_succ, List.getElem?_cons_zero,
    jsNumberInt?_intToJsStr]
  rw [if_neg hne]

theorem readBearerToken_bearer (t : JsStr) :
    readBearerToken (some (js "Bearer " ++ t)) = some (jsTrim t) := by
  unfold readBearerToken orEmpty
  rw [if_pos (by rw [List.isPrefixOf_iff_prefix]; exact List.prefix_append _ _)]
  have h7 : (7 : Nat) = (js "Bearer ").length := by decide
  rw [Option.getD_some, h7, List.drop_left]

theorem me_accepts (s : Db) (u : User) (ts : Nat) (hwf : UsersWf s) (hu : u ∈ s.users)
    (hval : ValidStr u.email) (hcolon : (58 : Nat) ∉ u.email) (hne : u.email ≠ []) :
    meHandler s (some (js "Bearer " ++ createToken u.id u.email ts)) =
      .success 200 (.me (mapUser u)) := by
  have htok : jsTrim (createToken u.id u.email ts) = createToken u.id u.email ts := by
    unfold createToken b64urlEncode
    exact jsTrim_b64 _
  have hfind : s.findUserByIdEmail u.id u.email = some u := by
    unfold Db.findUserByIdEmail
    refine find?_eq_some_of_unique _ hu (by simp) ?_
    intro v hv hpv
    simp only [Bool.and_eq_true, beq_iff_eq] at hpv
    exact mem_key_inj (fun w => w.id) hwf.1 hv hu hpv.1
  unfold meHandler
  rw [readBearerToken_bearer, htok]
  simp only [if_neg (createToken_ne_nil u.id u.email ts),
    parseToken_createToken u.id u.email ts hval hcolon hne, hfind]

/-! ## Demo fixtures and claim theorems -/

/-- The post rows seeded at first startup (server.js:65-74), at clock 0. -/
def seedPosts : List Post :=
  [⟨1, js "First post", js "This is sample seed data for CRUD demo.", 0, 0⟩,
   ⟨2, js "Second post", js "Try list/detail/create/edit/delete flow.", 0, 0⟩,
   ⟨3, js "Third post", js "Data is persisted in SQLite database.", 0, 0⟩]

/-- The user row seeded at first startup (server.js:76-82), at clock 0. -/
def demoUser : User := ⟨1, js "Demo User", js "demo@sample.com", js "1234", 0, 0⟩

/-- The database right after the seed bootstrap. -/
def demoDb : Db := ⟨seedPosts, [demoUser], 4, 2⟩

instance : IsTotal Post (fun a b => b.id ≤ a.id) := ⟨fun a b => le_total b.id a.id⟩

instance : IsTrans Post (fun a b => b.id ≤ a.id) := ⟨fun _ _ _ hab hbc => le_trans hbc hab⟩

/-- Claim C7: for every GET /api/posts/:id request, the handler responds 422
exactly when the id path parameter does not parse as an integer, 404 when it
is an integer but no post row has that id, and 200 with the post otherwise. -/
theorem getPost_pipeline (s : Db) (idParam : JsStr) :
    (jsNumberInt? idParam = none → getPostHandler s idParam = .failure 422 (js "Invalid id.")) ∧
    (∀ id, jsNumberInt? idParam = some id → s.findPost id = none →
      getPostHandler s idParam = .failure 404 (js "Post not found.")) ∧
    (∀ id p, jsNumberInt? idParam = some id → s.findPost id = some p →
      getPostHandler s idParam = .success 200 (.postOut p)) ∧
    ((getPostHandler s idParam).status = 422 ↔ jsNumberInt? idParam = none) := by
  refine ⟨?_, ?_, ?_, ?_⟩
  · intro h
    simp [getPostHandler, h]
  · intro id h hf
    simp [getPostHandler, h, hf]
  · intro id p h hf
    simp [getPostHandler, h, hf]
  · constructor
    · intro h
      cases hn : jsNumberInt? idParam with
      | none => rfl
      | some id =>
        cases hf : s.findPost id with
        | none => simp [getPostHandler, hn, hf, Resp.status] at h
        | some p => simp [getPostHandler, hn, hf, Resp.status] at h
    · intro h
      simp [getPostHandler, h, Resp.status]

theorem getPost_pipeline_witness :
    (jsNumberInt? (js "abc") = none ∧
      getPostHandler demoDb (js "abc") = .failure 422 (js "Invalid id.")) ∧
    (jsNumberInt? (js "99999") = some 99999 ∧ demoDb.findPost 99999 = none ∧
      getPostHandler demoDb (js "99999") = .failure 404 (js "Post not found.")) :=
  ⟨⟨by decide, (getPost_pipeline demoDb (js "abc")).1 (by decide)⟩,
   ⟨by decide, by decide,
    (getPost_pipeline demoDb (js "99999")).2.1 99999 (by decide) (by decide)⟩⟩

/-- Claim C9: for every state of the posts table, GET /api/posts returns all
rows (a permutation of the table, no pagination), ordered by id descending —
strictly descending on well-formed stores. -/
theorem listPosts_ordered (s : Db) :
    ∃ l, listPostsHandler s = .success 200 (.postList l) ∧ List.Perm l s.posts ∧
      l.Pairwise (fun a b => b.id ≤ a.id) ∧
      (PostsWf s → l.Pairwise (fun a b => b.id < a.id)) := by
  refine ⟨_, rfl, List.perm_insertionSort _ _, List.sorted_insertionSort _ _, ?_⟩
  intro hwf
  have hperm := List.perm_insertionSort (fun a b : Post => b.id ≤ a.id) s.posts
  have hne : (s.posts.insertionSort (fun a b => b.id ≤ a.id)).Pairwise
      (fun a b => a.id ≠ b.id) :=
    (hperm.pairwise_iff (fun hab => fun he => hab he.symm)).mpr hwf.1
  have hle := List.sorted_insertionSort (fun a b : Post => b.id ≤ a.id) s.posts
  have := List.Pairwise.and hle hne
  exact this.imp (fun h => lt_of_le_of_ne h.1 (fun he => h.2 he.symm))

theorem listPosts_ordered_witness :
    ∃ l, listPostsHandler demoDb = .success 200 (.postList l) ∧
      List.Perm l demoDb.posts ∧ l.Pairwise (fun a b => b.id ≤ a.id) ∧
      l.Pairwise (fun a b => b.id < a.id) := by
  obtain ⟨l, h1, h2, h3, h4⟩ := listPosts_ordered demoDb
  exact ⟨l, h1, h2, h3, h4 (by decide)⟩


theorem filter_id_eq_singleton {l : List Post} (hpw : l.Pairwise (fun a b => a.id ≠ b.id))
    {u : Post} (hu : u ∈ l) {i : Int} (hid : u.id = i) :
    l.filter (fun q => q.id == i) = [u] := by
  induction l with
  | nil => cases hu
  | cons a t ih =>
    rw [List.pairwise_cons] at hpw
    rcases List.mem_cons.mp hu with rfl | hm
    · rw [List.filter_cons_of_pos (by simp [hid])]
      have hnil : t.filter (fun q => q.id == i) = [] := by
        rw [List.filter_eq_nil_iff]
        intro q hq
        simp only [beq_iff_eq]
        have := hpw.1 q hq
        omega
      rw [hnil]
    · have hna : ¬((a.id == i) = true) := by
        simp only [beq_iff_eq]
        have := hpw.1 u hm
        omega
      rw [List.filter_cons_of_neg (by simpa using hna)]
      exact ih hpw.2 hm

/-- Claim C8: deleting an existing post id returns success with the id and
removes exactly that row; a second delete of the same id, or a delete of an
absent integer id, affects zero rows and returns 404 with the store
unchanged. -/
theorem deletePost_spec (s : Db) (idParam : JsStr) (id : Int)
    (hid : jsNumberInt? idParam = some id) :
    (∀ p, PostsWf s → s.findPost id = some p →
      ∃ s', deletePostHandler s idParam = (.success 200 (.deleted id), s') ∧
        s'.posts = s.posts.filter (fun q => !(q.id == id)) ∧
        List.Perm s.posts (p :: s'.posts) ∧
        p ∉ s'.posts ∧ (∀ q ∈ s.posts, q.id ≠ id → q ∈ s'.posts) ∧
        (∀ q ∈ s'.posts, q ∈ s.posts) ∧
        s'.users = s.users ∧ s'.nextPostId = s.nextPostId ∧ s'.nextUserId = s.nextUserId ∧
        deletePostHandler s' idParam = (.failure 404 (js "Post not found."), s')) ∧
    (s.findPost id = none →
      deletePostHandler s idParam = (.failure 404 (js "Post not found."), s)) := by
  constructor
  · intro p hwf hp
    have hmem : p ∈ s.posts := List.mem_of_find?_eq_some hp
    have hpid : p.id = id := by
      have := List.find?_some hp
      simpa using this
    have hchanges : s.posts.countP (fun q => q.id == id) ≠ 0 := by
      have : 0 < s.posts.countP (fun q => q.id == id) :=
        List.countP_pos_iff.mpr ⟨p, hmem, by simp [hpid]⟩
      omega
    refine ⟨⟨s.posts.filter (fun q => !(q.id == id)), s.users, s.nextPostId, s.nextUserId⟩,
      ?_, rfl, ?_, ?_, ?_, ?_, rfl, rfl, rfl, ?_⟩
    · simp only [deletePostHandler, hid]
      rw [if_neg hchanges]
    · have hperm := List.filter_append_perm (fun q => q.id == id) s.posts
      rw [filter_id_eq_singleton hwf.1 hmem hpid] at hperm
      exact hperm.symm
    · intro hmem2
      have := (List.mem_filter.mp hmem2).2
      simp [hpid] at this
    · intro q hq hne
      exact List.mem_filter.mpr ⟨hq, by simpa using hne⟩
    · intro q hq
      exact (List.mem_filter.mp hq).1
    · have hcount0 : (s.posts.filter (fun q => !(q.id == id))).countP
          (fun q => q.id == id) = 0 := by
        rw [List.countP_eq_zero]
        intro q hq
        have := (List.mem_filter.mp hq).2
        simpa using this
      simp only [deletePostHandler, hid]
      rw [if_pos hcount0]
      have hff : (s.posts.filter (fun q => !(q.id == id))).filter
          (fun q => !(q.id == id)) = s.posts.filter (fun q => !(q.id == id)) := by
        rw [List.filter_eq_self]
        intro q hq
        exact (List.mem_filter.mp hq).2
      rw [hff]
  · intro hnone
    have hall := List.find?_eq_none.mp hnone
    have hcount0 : s.posts.countP (fun q => q.id == id) = 0 := by
      rw [List.countP_eq_zero]
      intro q hq
      exact hall q hq
    have hfe : s.posts.filter (fun q => !(q.id == id)) = s.posts := by
      rw [List.filter_eq_self]
      intro q hq
      simpa using hall q hq
    simp only [deletePostHandler, hid]
    rw [if_pos hcount0, hfe]

theorem deletePost_spec_witness :
    ∃ s', deletePostHandler demoDb (js "2") = (.success 200 (.deleted 2), s') ∧
      deletePostHandler s' (js "2") = (.failure 404 (js "Post not found."), s') ∧
      deletePostHandler demoDb (js "99999") =
        (.failure 404 (js "Post not found."), demoDb) := by
  obtain ⟨s', h1, _, _, _, _, _, _, _, _, h10⟩ :=
    (deletePost_spec demoDb (js "2") 2 (by decide)).1
      ⟨2, js "Second post", js "Try list/detail/create/edit/delete flow.", 0, 0⟩
      (by decide) (by decide)
  exact ⟨s', h1, h10, (deletePost_spec demoDb (js "99999") 99999 (by decide)).2 (by decide)⟩


theorem validatePostInput_ok {t? c? : Option JsStr} {tt cc : JsStr}
    (hv : validatePostInput t? c? = .ok (tt, cc)) :
    tt = jsTrim (orEmpty t?) ∧ cc = jsTrim (orEmpty c?) ∧ tt ≠ [] ∧ cc ≠ [] := by
  simp only [validatePostInput] at hv
  split_ifs at hv with h1 h2
  simp only [Except.ok.injEq, Prod.mk.injEq] at hv
  obtain ⟨h3, h4⟩ := hv
  subst h3
  subst h4
  exact ⟨rfl, rfl, h1, h2⟩

/-- Claim C6: a create-post request passing validation inserts a row with
`createdAt = updatedAt = now` and the submitted (trimmed) title and content,
responds 201 with the freshly-read row, and fetching the post by the returned
id yields that same row. -/
theorem createPost_spec (s : Db) (t? c? : Option JsStr) (now : Nat) (tt cc : JsStr)
    (hwf : PostsWf s) (hv : validatePostInput t? c? = .ok (tt, cc)) :
    ∃ s' newP, createPostHandler s t? c? now = (.success 201 (.postRead (some newP)), s') ∧
      newP = ⟨s.nextPostId, tt, cc, now, now⟩ ∧
      newP.createdAt = newP.updatedAt ∧
      tt = jsTrim (orEmpty t?) ∧ cc = jsTrim (orEmpty c?) ∧
      s'.posts = s.posts ++ [newP] ∧ s'.users = s.users ∧
      s'.findPost s.nextPostId = some newP ∧
      getPostHandler s' (intToJsStr s.nextPostId) = .success 200 (.postOut newP) := by
  obtain ⟨ht, hc, _, _⟩ := validatePostInput_ok hv
  have hfind : (Db.mk (s.posts ++ [⟨s.nextPostId, tt, cc, now, now⟩]) s.users
      (s.nextPostId + 1) s.nextUserId).findPost s.nextPostId =
      some ⟨s.nextPostId, tt, cc, now, now⟩ := by
    unfold Db.findPost
    refine find?_eq_some_of_unique _ (by simp) (by simp) ?_
    intro v hv2 hpv
    simp only [beq_iff_eq] at hpv
    rcases List.mem_append.mp hv2 with hm | hm
    · have := hwf.2 v hm
      omega
    · simpa using hm
  refine ⟨⟨s.posts ++ [⟨s.nextPostId, tt, cc, now, now⟩], s.users, s.nextPostId + 1,
    s.nextUserId⟩, ⟨s.nextPostId, tt, cc, now, now⟩, ?_, rfl, rfl, ht, hc, rfl, rfl,
    hfind, ?_⟩
  · simp only [createPostHandler, hv, hfind]
  · simp only [getPostHandler, jsNumberInt?_intToJsStr, hfind]

theorem createPost_spec_witness :
    ∃ s' newP,
      createPostHandler demoDb (some (js "  Hello ")) (some (js " World ")) 9 =
        (.success 201 (.postRead (some newP)), s') ∧
      newP = ⟨4, js "Hello", js "World", 9, 9⟩ ∧
      getPostHandler s' (intToJsStr 4) = .success 200 (.postOut newP) := by
  obtain ⟨s', newP, h1, h2, _, _, _, _, _, _, h9⟩ :=
    createPost_spec demoDb (some (js "  Hello ")) (some (js " World ")) 9
      (js "Hello") (js "World") (by decide) (by rfl)
  exact ⟨s', newP, h1, h2, h9⟩


/-- Claim C5 (amended): a successful update of an existing post changes only
that row's title, content and updatedAt; its id and createdAt are constant,
every other row is unchanged, and the new updatedAt equals the update-time
clock value — strictly later than the replaced value whenever the clock has
advanced past it (within one millisecond the two ISO timestamps coincide). -/
theorem updatePost_spec (s : Db) (idParam : JsStr) (t? c? : Option JsStr) (now : Nat)
    (id : Int) (p : Post) (tt cc : JsStr)
    (hwf : PostsWf s) (hid : jsNumberInt? idParam = some id) (hp : s.findPost id = some p)
    (hv : validatePostInput t? c? = .ok (tt, cc)) :
    ∃ s' p', updatePostHandler s idParam t? c? now =
        (.success 200 (.postRead (some p')), s') ∧
      p' = ⟨p.id, tt, cc, p.createdAt, now⟩ ∧
      p'.id = p.id ∧ p'.createdAt = p.createdAt ∧ p'.updatedAt = now ∧
      s'.findPost id = some p' ∧
      s'.posts.length = s.posts.length ∧
      (∀ q ∈ s.posts, q.id ≠ id → q ∈ s'.posts) ∧
      (∀ q ∈ s'.posts, q.id ≠ id → q ∈ s.posts) ∧
      s'.users = s.users ∧ s'.nextPostId = s.nextPostId ∧ s'.nextUserId = s.nextUserId ∧
      (p.updatedAt < now → p.updatedAt < p'.updatedAt) := by
  have hmem : p ∈ s.posts := List.mem_of_find?_eq_some hp
  have hpid : p.id = id := by
    have := List.find?_some hp
    simpa using this
  have hchanges : s.posts.countP (fun q => q.id == id) ≠ 0 := by
    have : 0 < s.posts.countP (fun q => q.id == id) :=
      List.countP_pos_iff.mpr ⟨p, hmem, by simp [hpid]⟩
    omega
  have hidmap : ∀ q : Post,
      (if q.id == id then (⟨q.id, tt, cc, q.createdAt, now⟩ : Post) else q).id = q.id := by
    intro q
    split <;> rfl
  have hfind : (s.posts.map (fun q =>
      if q.id == id then (⟨q.id, tt, cc, q.createdAt, now⟩ : Post) else q)).find?
      (fun q => q.id == id) = some ⟨p.id, tt, cc, p.createdAt, now⟩ := by
    refine find?_eq_some_of_unique _ ?_ (by simp [hpid]) ?_
    · refine List.mem_map.mpr ⟨p, hmem, ?_⟩
      rw [if_pos (by simp [hpid])]
    · intro v hv2 hpv
      obtain ⟨q, hq, rfl⟩ := List.mem_map.mp hv2
      rw [hidmap q] at hpv
      simp only [beq_iff_eq] at hpv
      have hqp : q = p := mem_key_inj (fun w => w.id) hwf.1 hq hmem (show q.id = p.id by omega)
      subst hqp
      rw [if_pos (by simp [hpid])]
  have hrun : updatePostHandler s idParam t? c? now =
      (.success 200 (.postRead (some ⟨p.id, tt, cc, p.createdAt, now⟩)),
       ⟨s.posts.map (fun q =>
          if q.id == id then (⟨q.id, tt, cc, q.createdAt, now⟩ : Post) else q),
        s.users, s.nextPostId, s.nextUserId⟩) := by
    simp only [updatePostHandler, hid, hv]
    rw [if_neg hchanges]
    simp only [Db.findPost]
    rw [hfind]
  refine ⟨_, _, hrun, rfl, rfl, rfl, rfl, ?_, by simp, ?_, ?_, rfl, rfl, rfl, fun h => h⟩
  · simp only [Db.findPost]
    exact hfind
  · intro q hq hne
    refine List.mem_map.mpr ⟨q, hq, ?_⟩
    rw [if_neg (by simpa using hne)]
  · intro q hq hne
    obtain ⟨w, hw, rfl⟩ := List.mem_map.mp hq
    have hwid : w.id ≠ id := by
      have := hidmap w
      omega
    rw [if_neg (by simpa using hwid)]
    exact hw

theorem updatePost_spec_witness :
    ∃ s' p', updatePostHandler demoDb (js "1") (some (js " New title "))
        (some (js "New content")) 7 = (.success 200 (.postRead (some p')), s') ∧
      p' = ⟨1, js "New title", js "New content", 0, 7⟩ ∧
      p'.createdAt = 0 ∧ p'.updatedAt = 7 ∧ (0 : Nat) < p'.updatedAt := by
  obtain ⟨s', p', h1, h2, h3, h4, h5, h6, h7, h8, h9, h10, h11, h12, h13⟩ :=
    updatePost_spec demoDb (js "1") (some (js " New title ")) (some (js "New content")) 7
      1 ⟨1, js "First post", js "This is sample seed data for CRUD demo.", 0, 0⟩
      (js "New title") (js "New content") (by decide) (by decide) (by decide) (by rfl)
  subst h2
  exact ⟨s', _, h1, rfl, rfl, rfl, h13 (by decide)⟩

/-- Claim C5 counterexample: an update in the same clock instant as the value
it replaces succeeds but does not move updatedAt strictly forward
(`new Date().toISOString()` has millisecond granularity). -/
theorem updatePost_not_strict_counterexample :
    demoDb.findPost 1 =
      some ⟨1, js "First post", js "This is sample seed data for CRUD demo.", 0, 0⟩ ∧
    (updatePostHandler demoDb (js "1") (some (js "X")) (some (js "Y")) 0).1 =
      .success 200 (.postRead (some ⟨1, js "X", js "Y", 0, 0⟩)) ∧
    ¬((0 : Nat) < 0) := by
  refine ⟨by decide, ?_, by decide⟩
  decide


/-- Claim C1: GET /api/auth/me follows the four-stage pipeline — 401 when the
Authorization header carries no (non-empty) bearer token, 401 when the token
fails to decode, 401 when the decoded (id, email) pair matches no stored user
row, and otherwise 200 with the user payload for the matching row. -/
theorem me_pipeline (s : Db) (auth? : Option JsStr) :
    (readBearerToken auth? = none →
      meHandler s auth? = .failure 401 (js "Bearer token is required.")) ∧
    (readBearerToken auth? = some [] →
      meHandler s auth? = .failure 401 (js "Bearer token is required.")) ∧
    (∀ t, readBearerToken auth? = some t → t ≠ [] → parseToken t = none →
      meHandler s auth? = .failure 401 (js "Invalid token.")) ∧
    (∀ t id em, readBearerToken auth? = some t → t ≠ [] → parseToken t = some (id, em) →
      s.findUserByIdEmail id em = none →
      meHandler s auth? = .failure 401 (js "Invalid token.")) ∧
    (∀ t id em u, readBearerToken auth? = some t → t ≠ [] →
      parseToken t = some (id, em) → s.findUserByIdEmail id em = some u →
      meHandler s auth? = .success 200 (.me (mapUser u))) := by
  refine ⟨?_, ?_, ?_, ?_, ?_⟩
  · intro h
    simp [meHandler, h]
  · intro h
    simp [meHandler, h]
  · intro t h hne hp
    simp [meHandler, h, hne, hp]
  · intro t id em h hne hp hf
    simp [meHandler, h, hne, hp, hf]
  · intro t id em u h hne hp hf
    simp [meHandler, h, hne, hp, hf]

theorem me_pipeline_witness :
    (meHandler demoDb none = .failure 401 (js "Bearer token is required.")) ∧
    (meHandler demoDb (some (js "Bearer ")) =
      .failure 401 (js "Bearer token is required.")) ∧
    (meHandler demoDb (some (js "Bearer not-a-token~~~")) =
      .failure 401 (js "Invalid token.")) ∧
    (meHandler demoDb (some (js "Bearer " ++ createToken 9 (js "ghost@x.com") 3)) =
      .failure 401 (js "Invalid token.")) ∧
    (meHandler demoDb (some (js "Bearer " ++ createToken 1 (js "demo@sample.com") 3)) =
      .success 200 (.me (mapUser demoUser))) :=
  ⟨(me_pipeline demoDb none).1 (by decide),
   (me_pipeline demoDb (some (js "Bearer "))).2.1 (by decide),
   (me_pipeline demoDb (some (js "Bearer not-a-token~~~"))).2.2.1
     (js "not-a-token~~~") (by decide) (by decide) (by decide),
   (me_pipeline demoDb (some (js "Bearer " ++ createToken 9 (js "ghost@x.com") 3))).2.2.2.1
     (createToken 9 (js "ghost@x.com") 3) 9 (js "ghost@x.com")
     (by decide) (by decide) (by decide) (by decide),
   (me_pipeline demoDb (some (js "Bearer " ++ createToken 1 (js "demo@sample.com") 3))).2.2.2.2
     (createToken 1 (js "demo@sample.com") 3) 1 (js "demo@sample.com") demoUser
     (by decide) (by decide) (by decide) (by decide)⟩


/-- Claim C3: the token decoder is total — every input yields `none` or
`some (id, email)`, nothing is thrown.  It yields `none` when the payload
cannot be decoded, when the id segment is not an integer, and when the email
segment is missing or empty; `some (id, email)` otherwise.  Consequently
/api/auth/me answers every request with 200 or 401, and any bearer token
whose (trimmed) text fails to decode gets 401 "Invalid token.". -/
theorem parseToken_total_spec :
    (∀ t, tokenPayload t = none → parseToken t = none) ∧
    (∀ t d, tokenPayload t = some d → jsNumberInt? ((splitAll 58 d).headD []) = none →
      parseToken t = none) ∧
    (∀ t d, tokenPayload t = some d →
      ((splitAll 58 d)[1]? = none ∨ (splitAll 58 d)[1]? = some []) →
      parseToken t = none) ∧
    (∀ t d id em, tokenPayload t = some d →
      jsNumberInt? ((splitAll 58 d).headD []) = some id →
      (splitAll 58 d)[1]? = some em → em ≠ [] → parseToken t = some (id, em)) ∧
    (∀ s auth?, (meHandler s auth?).status = 200 ∨ (meHandler s auth?).status = 401) ∧
    (∀ s t, jsTrim t ≠ [] → parseToken (jsTrim t) = none →
      meHandler s (some (js "Bearer " ++ t)) = .failure 401 (js "Invalid token.")) := by
  refine ⟨?_, ?_, ?_, ?_, ?_, ?_⟩
  · intro t h
    simp [parseToken, h]
  · intro t d hd h
    simp only [parseToken, hd, claimsOfPayload]
    rw [h]
  · intro t d hd h
    simp only [parseToken, hd, claimsOfPayload]
    rcases h with h | h
    · rw [h]
      cases hn : jsNumberInt? ((splitAll 58 d).headD []) <;> rfl
    · rw [h]
      cases hn : jsNumberInt? ((splitAll 58 d).headD []) <;> rfl
  · intro t d id em hd h1 h2 hne
    simp only [parseToken, hd, claimsOfPayload]
    rw [h1, h2]
    show (if em = [] then (none : Option (Int × JsStr)) else some (id, em)) = some (id, em)
    rw [if_neg hne]
  · intro s auth?
    unfold meHandler
    repeat' split
    all_goals simp [Resp.status]
  · intro s t hne hp
    have := (me_pipeline s (some (js "Bearer " ++ t))).2.2.1 (jsTrim t)
      (readBearerToken_bearer t) hne hp
    exact this

theorem parseToken_total_spec_witness :
    (parseToken (js "##") = none ∧
      meHandler demoDb (some (js "Bearer ##")) = .failure 401 (js "Invalid token.")) ∧
    (tokenPayload (js "MTIzNA") = some (js "1234") ∧
      parseToken (js "MTIzNA") = none) ∧
    (tokenPayload (js "MS41OmFiYw") = some (js "1.5:abc") ∧
      parseToken (js "MS41OmFiYw") = none) ∧
    (tokenPayload (js "MTphYmM") = some (js "1:abc") ∧
      parseToken (js "MTphYmM") = some (1, js "abc")) := by
  refine ⟨⟨?_, ?_⟩, ⟨by decide, ?_⟩, ⟨by decide, ?_⟩, ⟨by decide, ?_⟩⟩
  · exact (parseToken_total_spec.2.2.1 (js "##") (js "") (by decide) (Or.inl (by decide)))
  · exact parseToken_total_spec.2.2.2.2.2 demoDb (js "##") (by decide) (by decide)
  · exact (parseToken_total_spec.2.2.1 (js "MTIzNA") (js "1234") (by decide)
      (Or.inl (by decide)))
  · exact (parseToken_total_spec.2.1 (js "MS41OmFiYw") (js "1.5:abc") (by decide) (by decide))
  · exact (parseToken_total_spec.2.2.2.1 (js "MTphYmM") (js "1:abc") 1 (js "abc")
      (by decide) (by decide) (by decide) (by decide))


/-- An email string for which the token codec is faithful: Unicode scalar
values only, no `":"` (the payload separator), non-empty. -/
def EmailOk (e : JsStr) : Prop := ValidStr e ∧ (58 : Nat) ∉ e ∧ e ≠ []

instance (e : JsStr) : Decidable (EmailOk e) := by unfold EmailOk; infer_instance

/-- Inserting a fresh user preserves the users invariant. -/
theorem usersWf_append (s : Db) (hwf : UsersWf s) (name email password : JsStr)
    (now : Nat) :
    UsersWf ⟨s.posts, s.users ++ [⟨s.nextUserId, name, email, password, now, now⟩],
      s.nextPostId, s.nextUserId + 1⟩ := by
  constructor
  · rw [List.pairwise_append]
    refine ⟨hwf.1, List.pairwise_singleton _ _, ?_⟩
    intro a ha b hb
    have hb2 : b = ⟨s.nextUserId, name, email, password, now, now⟩ := by simpa using hb
    have := hwf.2 a ha
    subst hb2
    simp only []
    omega
  · intro v hv
    rcases List.mem_append.mp hv with hm | hm
    · have := hwf.2 v hm
      simp only []
      omega
    · have hv2 : v = ⟨s.nextUserId, name, email, password, now, now⟩ := by simpa using hm
      subst hv2
      simp only []
      omega

/-- Claim C2 counterexample: the token payload is separated by `":"`, so for
a user row whose (reachable) email contains a colon the decoder truncates
the email at the first colon and does not return the original pair. -/
theorem token_colon_email_counterexample :
    parseToken (createToken 1 (js "a:b@x.com") 7) = some (1, js "a") ∧
    parseToken (createToken 1 (js "a:b@x.com") 7) ≠ some (1, js "a:b@x.com") := by
  constructor
  · decide
  · decide

/-- Claim C2 (amended): for every integer id and non-empty colon-free email
of Unicode scalar values, decoding a freshly encoded token yields exactly
that (id, email) pair; consequently a token returned by a successful login
or signup is subsequently accepted by /api/auth/me for the same stored user
row, provided that row's email is colon-free. -/
theorem token_roundtrip_spec :
    (∀ id email ts, EmailOk email →
      parseToken (createToken id email ts) = some (id, email)) ∧
    (∀ s u ts, UsersWf s → u ∈ s.users → EmailOk u.email →
      meHandler s (some (js "Bearer " ++ createToken u.id u.email ts)) =
        .success 200 (.me (mapUser u))) ∧
    (∀ s e? p? now tok uo, loginHandler s e? p? now = .success 200 (.auth tok uo) →
      ∃ u, u ∈ s.users ∧ tok = createToken u.id u.email now ∧ uo = mapUser u ∧
        (UsersWf s → EmailOk u.email →
          meHandler s (some (js "Bearer " ++ tok)) = .success 200 (.me uo))) ∧
    (∀ s n? e? p? now tok uo s', UsersWf s →
      signupHandler s n? e? p? now = (.success 201 (.auth tok uo), s') →
      UsersWf s' ∧ ∃ u, u ∈ s'.users ∧ tok = createToken u.id u.email now ∧
        uo = mapUser u ∧
        (EmailOk u.email →
          meHandler s' (some (js "Bearer " ++ tok)) = .success 200 (.me uo))) := by
  have hrt : ∀ id email ts, EmailOk email →
      parseToken (createToken id email ts) = some (id, email) :=
    fun id email ts he => parseToken_createToken id email ts he.1 he.2.1 he.2.2
  have hacc : ∀ s u ts, UsersWf s → u ∈ s.users → EmailOk u.email →
      meHandler s (some (js "Bearer " ++ createToken u.id u.email ts)) =
        .success 200 (.me (mapUser u)) :=
    fun s u ts hwf hu he => me_accepts s u ts hwf hu he.1 he.2.1 he.2.2
  refine ⟨hrt, hacc, ?_, ?_⟩
  · intro s e? p? now tok uo h
    simp only [loginHandler] at h
    split_ifs at h with h1
    cases hfe : s.findUserByEmail (jsToLower (jsTrim (orEmpty e?))) with
    | none =>
      simp only [hfe] at h
      simp at h
    | some u =>
      simp only [hfe] at h
      split_ifs at h with h2
      simp only [Resp.success.injEq, Payload.auth.injEq] at h
      obtain ⟨-, htok, huo⟩ := h
      refine ⟨u, List.mem_of_find?_eq_some hfe, htok.symm, huo.symm, ?_⟩
      intro hwf he
      rw [htok.symm, huo.symm]
      exact hacc s u now hwf (List.mem_of_find?_eq_some hfe) he
  · intro s n? e? p? now tok uo s' hwf h
    simp only [signupHandler] at h
    split_ifs at h with h1
    · simp at h
    cases hfe : s.findUserByEmail (jsToLower (jsTrim (orEmpty e?))) with
    | some u =>
      simp only [hfe] at h
      simp at h
    | none =>
      simp only [hfe] at h
      cases hins : s.insertUser (jsTrim (orEmpty n?)) (jsToLower (jsTrim (orEmpty e?)))
          (jsTrim (orEmpty p?)) now with
      | error e =>
        simp only [hins] at h
        simp at h
      | ok rs =>
        obtain ⟨c, rest⟩ := rs
        simp only [hins] at h
        have hins2 : c = s.nextUserId ∧ rest = ⟨s.posts,
            s.users ++ [⟨s.nextUserId, jsTrim (orEmpty n?),
              jsToLower (jsTrim (orEmpty e?)), jsTrim (orEmpty p?), now, now⟩],
            s.nextPostId, s.nextUserId + 1⟩ := by
          unfold Db.insertUser at hins
          split_ifs at hins with h3
          first
            | exact ⟨hins.1.symm, hins.2.symm⟩
            | (simp only [Except.ok.injEq, Prod.mk.injEq] at hins
               exact ⟨hins.1.symm, hins.2.symm⟩)
        cases hfi : Db.findUserById rest c with
        | none =>
          simp only [hfi] at h
          simp at h
        | some u =>
          simp only [hfi] at h
          simp only [Prod.mk.injEq, Resp.success.injEq, Payload.auth.injEq] at h
          obtain ⟨⟨-, htok, huo⟩, hs'⟩ := h
          have hwf2 : UsersWf rest := by
            rw [hins2.2]
            exact usersWf_append s hwf _ _ _ now
          refine ⟨hs' ▸ hwf2, u, ?_, htok.symm, huo.symm, ?_⟩
          · rw [← hs']
            exact List.mem_of_find?_eq_some hfi
          · intro he
            rw [htok.symm, huo.symm, ← hs']
            exact hacc rest u now hwf2 (List.mem_of_find?_eq_some hfi) he

theorem token_roundtrip_spec_witness :
    (parseToken (createToken 5 (js "x@y.z") 11) = some (5, js "x@y.z")) ∧
    (meHandler demoDb (some (js "Bearer " ++ createToken 1 (js "demo@sample.com") 11)) =
      .success 200 (.me (mapUser demoUser))) ∧
    (∃ u, u ∈ demoDb.users ∧
      createToken 1 (js "demo@sample.com") 13 = createToken u.id u.email 13 ∧
      mapUser demoUser = mapUser u ∧
      meHandler demoDb (some (js "Bearer " ++ createToken 1 (js "demo@sample.com") 13)) =
        .success 200 (.me (mapUser demoUser))) := by
  refine ⟨token_roundtrip_spec.1 5 (js "x@y.z") 11 (by decide),
    token_roundtrip_spec.2.1 demoDb demoUser 11 (by decide) (by decide) (by decide), ?_⟩
  obtain ⟨u, hu, htok, huo, hme⟩ := token_roundtrip_spec.2.2.1 demoDb
    (some (js "demo@sample.com")) (some (js "1234")) 13
    (createToken 1 (js "demo@sample.com") 13) (mapUser demoUser) (by decide)
  have hud : u = demoUser := by simpa [demoDb] using hu
  subst hud
  exact ⟨demoUser, hu, htok, huo, hme (by decide) (by decide)⟩


/-- Claim C4 counterexample: a signup request whose email duplicates the
stored demo user (case-insensitively equal) but whose name is blank is
rejected by validation with 422, not 409 — validation runs before the
duplicate check. -/
theorem signup_dup_blank_name_counterexample :
    demoUser ∈ demoDb.users ∧
    jsToLower (jsTrim (orEmpty (some (js "demo@sample.com")))) = demoUser.email ∧
    signupHandler demoDb (some (js "")) (some (js "demo@sample.com"))
      (some (js "pw")) 5 =
      (.failure 422 (js "name, email, password are required."), demoDb) ∧
    (signupHandler demoDb (some (js "")) (some (js "demo@sample.com"))
      (some (js "pw")) 5).1.status ≠ 409 := by
  refine ⟨by decide, by decide, by decide, by decide⟩

/-- Claim C4 (amended): a signup request whose name and password are
non-empty after trimming and whose email — after trimming and lowercasing —
case-insensitively equals the (non-empty, lowercase-normalised) email of an
existing user row is answered with 409 and leaves the store unchanged; at
the storage layer, inserting that email is a typed uniqueness failure, not
a crash. -/
theorem signup_duplicate_email (s : Db) (n? e? p? : Option JsStr) (now : Nat)
    (hlower : EmailsLower s)
    (hn : jsTrim (orEmpty n?) ≠ []) (hpw : jsTrim (orEmpty p?) ≠ [])
    (u : User) (hu : u ∈ s.users) (hne : u.email ≠ [])
    (hmatch : jsToLower u.email = jsToLower (jsTrim (orEmpty e?))) :
    signupHandler s n? e? p? now =
      (.failure 409 (js "This email is already registered."), s) ∧
    (∀ nm pw now2, s.insertUser nm (jsToLower (jsTrim (orEmpty e?))) pw now2 =
      .error (js "UNIQUE constraint failed: users.email")) := by
  have hemail : jsToLower (jsTrim (orEmpty e?)) = u.email := by
    rw [← hmatch, hlower u hu]
  have hany : (s.users.any fun v => v.email == jsToLower (jsTrim (orEmpty e?))) = true :=
    List.any_eq_true.mpr ⟨u, hu, by simp [hemail]⟩
  constructor
  · simp only [signupHandler]
    rw [if_neg (by
      push_neg
      exact ⟨hn, by rw [hemail]; exact hne, hpw⟩)]
    cases hfe : s.findUserByEmail (jsToLower (jsTrim (orEmpty e?))) with
    | none =>
      exfalso
      have := List.find?_eq_none.mp hfe u hu
      simp [hemail] at this
    | some v => simp only [hfe]
  · intro nm pw now2
    unfold Db.insertUser
    rw [if_pos hany]

theorem signup_duplicate_email_witness :
    signupHandler demoDb (some (js "Someone")) (some (js " DEMO@Sample.com "))
      (some (js "secret")) 5 =
      (.failure 409 (js "This email is already registered."), demoDb) ∧
    demoDb.insertUser (js "Someone") (js "demo@sample.com") (js "secret") 5 =
      .error (js "UNIQUE constraint failed: users.email") := by
  obtain ⟨h1, h2⟩ := signup_duplicate_email demoDb (some (js "Someone"))
    (some (js " DEMO@Sample.com ")) (some (js "secret")) 5 (by decide) (by decide)
    (by decide) demoUser (by decide) (by decide) (by decide)
  exact ⟨h1, by
    have := h2 (js "Someone") (js "secret") 5
    simpa using this⟩


/-- Two user rows equal in every column except possibly the password. -/
def PwEq (u v : User) : Prop :=
  u.id = v.id ∧ u.name = v.name ∧ u.email = v.email ∧
    u.createdAt = v.createdAt ∧ u.updatedAt = v.updatedAt

/-- Two stores equal except possibly the stored passwords. -/
def DbEqExceptPw (s1 s2 : Db) : Prop :=
  s1.posts = s2.posts ∧ List.Forall₂ PwEq s1.users s2.users ∧
    s1.nextPostId = s2.nextPostId ∧ s1.nextUserId = s2.nextUserId

theorem mapUser_pwEq {u v : User} (h : PwEq u v) : mapUser u = mapUser v := by
  obtain ⟨h1, h2, h3, h4, h5⟩ := h
  simp [mapUser, h1, h2, h3, h4]

theorem find?_pwEq {l1 l2 : List User} (h : List.Forall₂ PwEq l1 l2)
    (p : User → Bool) (hp : ∀ u v, PwEq u v → p u = p v) :
    (l1.find? p = none ∧ l2.find? p = none) ∨
    (∃ u v, l1.find? p = some u ∧ l2.find? p = some v ∧ PwEq u v) := by
  induction h with
  | nil => exact Or.inl ⟨rfl, rfl⟩
  | @cons a b t1 t2 hR hrest ih =>
    by_cases hpa : p a = true
    · refine Or.inr ⟨a, b, List.find?_cons_of_pos _ hpa,
        List.find?_cons_of_pos _ (by rw [← hp _ _ hR]; exact hpa), hR⟩
    · rw [List.find?_cons_of_neg _ (by simpa using hpa),
        List.find?_cons_of_neg _ (by rw [← hp _ _ hR]; simpa using hpa)]
      exact ih

theorem any_pwEq {l1 l2 : List User} (h : List.Forall₂ PwEq l1 l2)
    (p : User → Bool) (hp : ∀ u v, PwEq u v → p u = p v) :
    l1.any p = l2.any p := by
  induction h with
  | nil => rfl
  | @cons a b t1 t2 hR hrest ih => simp [List.any_cons, hp a b hR, ih]

/-- The exact shape of a successful login response: the token and projected
user of the stored row — fields the password is not part of. -/
theorem login_success_shape (s : Db) (e? p? : Option JsStr) (now : Nat)
    (tok : JsStr) (uo : UserOut)
    (h : loginHandler s e? p? now = .success 200 (.auth tok uo)) :
    ∃ u, u ∈ s.users ∧ tok = createToken u.id u.email now ∧ uo = mapUser u := by
  simp only [loginHandler] at h
  split_ifs at h with h1
  cases hfe : s.findUserByEmail (jsToLower (jsTrim (orEmpty e?))) with
  | none =>
    simp only [hfe] at h
    simp at h
  | some u =>
    simp only [hfe] at h
    split_ifs at h with h2
    simp only [Resp.success.injEq, Payload.auth.injEq] at h
    exact ⟨u, List.mem_of_find?_eq_some hfe, h.2.1.symm, h.2.2.symm⟩

theorem meHandler_pw_indep (s1 s2 : Db) (a? : Option JsStr) (h : DbEqExceptPw s1 s2) :
    meHandler s1 a? = meHandler s2 a? := by
  simp only [meHandler]
  cases hb : readBearerToken a? with
  | none => simp only [hb]
  | some t =>
    simp only [hb]
    by_cases ht : t = []
    · rw [if_pos ht, if_pos ht]
    · rw [if_neg ht, if_neg ht]
      cases hp : parseToken t with
      | none => simp only [hp]
      | some claims =>
        simp only [hp]
        have hfind := find?_pwEq h.2.1 (fun v => v.id == claims.1 && v.email == claims.2)
          (fun u v hR => by simp [hR.1, hR.2.2.1])
        simp only [Db.findUserByIdEmail]
        rcases hfind with ⟨hn1, hn2⟩ | ⟨u, v, hs1, hs2, hR⟩
        · simp only [hn1, hn2]
        · simp only [hs1, hs2, mapUser_pwEq hR]

theorem signup_pw_indep (s1 s2 : Db) (n? e? p? : Option JsStr) (now : Nat)
    (h : DbEqExceptPw s1 s2) :
    (signupHandler s1 n? e? p? now).1 = (signupHandler s2 n? e? p? now).1 ∧
    DbEqExceptPw (signupHandler s1 n? e? p? now).2 (signupHandler s2 n? e? p? now).2 := by
  obtain ⟨hposts, husers, hnp, hnu⟩ := h
  simp only [signupHandler]
  split_ifs with h1
  · exact ⟨rfl, hposts, husers, hnp, hnu⟩
  · have hfind := find?_pwEq husers (fun v => v.email == jsToLower (jsTrim (orEmpty e?)))
      (fun u v hR => by simp [hR.2.2.1])
    simp only [Db.findUserByEmail]
    rcases hfind with ⟨hn1, hn2⟩ | ⟨u, v, hs1, hs2, hR⟩
    · simp only [hn1, hn2, Db.insertUser]
      have hany := any_pwEq husers (fun v => v.email == jsToLower (jsTrim (orEmpty e?)))
        (fun u v hR => by simp [hR.2.2.1])
      rw [← hposts, ← hnp, ← hnu, ← hany]
      by_cases ha : (s1.users.any fun v => v.email == jsToLower (jsTrim (orEmpty e?))) = true
      · rw [if_pos ha, if_pos ha]
        exact ⟨rfl, hposts, husers, hnp, hnu⟩
      · rw [if_neg ha, if_neg ha]
        have husers2 : List.Forall₂ PwEq
            (s1.users ++ [⟨s1.nextUserId, jsTrim (orEmpty n?),
              jsToLower (jsTrim (orEmpty e?)), jsTrim (orEmpty p?), now, now⟩])
            (s2.users ++ [⟨s1.nextUserId, jsTrim (orEmpty n?),
              jsToLower (jsTrim (orEmpty e?)), jsTrim (orEmpty p?), now, now⟩]) :=
          List.rel_append husers
            (List.Forall₂.cons ⟨rfl, rfl, rfl, rfl, rfl⟩ List.Forall₂.nil)
        have hfind2 := find?_pwEq husers2 (fun v => v.id == s1.nextUserId)
          (fun u v hR => by simp [hR.1])
        simp only [Db.findUserById]
        rcases hfind2 with ⟨hm1, hm2⟩ | ⟨u2, v2, hm1, hm2, hR2⟩
        · simp only [hm1, hm2]
          exact ⟨trivial, rfl, husers2, rfl, rfl⟩
        · simp only [hm1, hm2, mapUser_pwEq hR2, hR2.1, hR2.2.2.1]
          exact ⟨trivial, rfl, husers2, rfl, rfl⟩
    · simp only [hs1, hs2]
      exact ⟨trivial, hposts, husers, hnp, hnu⟩

/-- Claim C10: signup, login and /api/auth/me never expose the stored
password: user payloads go through `mapUser`, which has no password field
and is invariant under the password column; two stores whose user rows
differ only in passwords produce identical /me responses and identical
signup responses (with the except-password relation preserved on the
store); and a successful login response consists solely of the token
derived from (id, email, time) and the `mapUser` projection of the row. -/
theorem password_confidentiality :
    (∀ u : User, ∀ pw,
      mapUser ⟨u.id, u.name, u.email, pw, u.createdAt, u.updatedAt⟩ = mapUser u) ∧
    (∀ s1 s2 a?, DbEqExceptPw s1 s2 → meHandler s1 a? = meHandler s2 a?) ∧
    (∀ s1 s2 n? e? p? now, DbEqExceptPw s1 s2 →
      (signupHandler s1 n? e? p? now).1 = (signupHandler s2 n? e? p? now).1 ∧
      DbEqExceptPw (signupHandler s1 n? e? p? now).2 (signupHandler s2 n? e? p? now).2) ∧
    (∀ s e? p? now tok uo, loginHandler s e? p? now = .success 200 (.auth tok uo) →
      ∃ u, u ∈ s.users ∧ tok = createToken u.id u.email now ∧ uo = mapUser u) :=
  ⟨fun _ _ => rfl, meHandler_pw_indep, signup_pw_indep, login_success_shape⟩

/-- The demo store with the demo user's password replaced. -/
def demoDbAlt : Db :=
  ⟨seedPosts, [⟨1, js "Demo User", js "demo@sample.com", js "hunter2", 0, 0⟩], 4, 2⟩

theorem password_confidentiality_witness :
    DbEqExceptPw demoDb demoDbAlt ∧
    meHandler demoDb (some (js "Bearer " ++ createToken 1 (js "demo@sample.com") 3)) =
      meHandler demoDbAlt (some (js "Bearer " ++ createToken 1 (js "demo@sample.com") 3)) ∧
    (signupHandler demoDb (some (js "N")) (some (js "new@x.com")) (some (js "p")) 4).1 =
      (signupHandler demoDbAlt (some (js "N")) (some (js "new@x.com"))
        (some (js "p")) 4).1 := by
  have hrel : DbEqExceptPw demoDb demoDbAlt :=
    ⟨rfl, List.Forall₂.cons ⟨rfl, rfl, rfl, rfl, rfl⟩ List.Forall₂.nil, rfl, rfl⟩
  exact ⟨hrel,
    password_confidentiality.2.1 demoDb demoDbAlt
      (some (js "Bearer " ++ createToken 1 (js "demo@sample.com") 3)) hrel,
    (password_confidentiality.2.2.1 demoDb demoDbAlt (some (js "N"))
      (some (js "new@x.com")) (some (js "p")) 4 hrel).1⟩

end MbestApi
